import Mathlib

/-
Verification of the algorithm prototype cache and engine lifecycle of
src/src/libstate/engine/engine.cpp (Botan, engine base class).

The embedding models heap-allocated algorithm objects as `Instance` values
carrying an identity (the pointer) and a self-reported canonical name
(the result of the C++ virtual call algo->name()).  A cache
(Algorithm_Cache_Impl) is a mutex id plus the std::map from names to owned
instances, embedded as an association list in key-insertion form, together
with a ghost list `destroyed` recording, in order, the ids passed to the
C++ delete operator.  Stateful methods become state-passing functions.
-/

namespace BotanEngine

/-- An algorithm prototype object on the heap: `id` stands for the pointer
identity, `name` for the result of the virtual name() call. -/
structure Instance where
  id : Nat
  name : String
deriving DecidableEq

/-- search_map from stl_util.h: lookup of a key in the std::map, embedded
as first-match lookup on the association list. -/
def search_map : List (String × Instance) → String → Option Instance
  | [], _ => none
  | (k, v) :: t, n => if k = n then some v else search_map t n

/-- Replacement of the value mapped at an existing key, leaving all other
entries untouched (the effect of mappings[name] = algo on a present key). -/
def updateKey : List (String × Instance) → String → Instance → List (String × Instance)
  | [], k, v => [(k, v)]
  | (k0, v0) :: t, k, v =>
      if k0 = k then (k, v) :: t else (k0, v0) :: updateKey t k v

/-- State of one Algorithm_Cache_Impl: the mutex it owns, the mappings map,
and the ghost record of every instance id deleted so far. -/
structure CacheState where
  mutex : Nat
  entries : List (String × Instance)
  destroyed : List Nat
deriving DecidableEq

/-- Algorithm_Cache_Impl::get - locked lookup; no mutation, no search. -/
def CacheState.get (s : CacheState) (name : String) : Option Instance :=
  search_map s.entries name

/-- Algorithm_Cache_Impl::add - null check, key selection
(index_name if nonempty, else algo->name()), delete of a superseded
entry, then map update. -/
def CacheState.add (s : CacheState) (algo : Option Instance) (index_name : String) :
    CacheState :=
  match algo with
  | none => s
  | some a =>
      let name := if index_name = "" then a.name else index_name
      match search_map s.entries name with
      | some old =>
          { s with entries := updateKey s.entries name a,
                   destroyed := s.destroyed ++ [old.id] }
      | none =>
          { s with entries := s.entries ++ [(name, a)] }

/-- Ids of the instances a cache currently owns (its map values). -/
def valsOf (s : CacheState) : List Nat :=
  s.entries.map (fun p => p.2.id)

/-- Keys currently present in the map of a cache. -/
def keysOf (s : CacheState) : List String :=
  s.entries.map Prod.fst

/-- Events emitted by destructors: freeing an instance or freeing a mutex. -/
inductive FreeEvent where
  | inst (id : Nat)
  | mutex (id : Nat)
deriving DecidableEq

/-- Algorithm_Cache_Impl::~Algorithm_Cache_Impl - delete every mapped
instance in map order, then delete the mutex. -/
def CacheState.destructorEvents (s : CacheState) : List FreeEvent :=
  s.entries.map (fun p => FreeEvent.inst p.2.id) ++ [FreeEvent.mutex s.mutex]

/-- All instance ids a cache has freed over its whole lifetime: those deleted
by add replacements plus those deleted by the destructor. -/
def CacheState.lifetimeFreedIds (s : CacheState) : List Nat :=
  s.destroyed ++ valsOf s

/-- Ownership and no-double-free invariant of one cache: at most one entry
per name, pairwise distinct owned instances, each destruction recorded at
most once, and nothing destroyed while still mapped. -/
def Inv (s : CacheState) : Prop :=
  (keysOf s).Nodup ∧ (valsOf s).Nodup ∧ s.destroyed.Nodup ∧
    ∀ x ∈ s.destroyed, x ∉ valsOf s

instance (s : CacheState) : Decidable (Inv s) := by
  unfold Inv
  exact inferInstance

/-- Freshness of a heap object about to be added: its pointer identity is
neither currently owned by the cache nor already freed. -/
def FreshFor (a : Instance) (s : CacheState) : Prop :=
  a.id ∉ valsOf s ∧ a.id ∉ s.destroyed

instance (a : Instance) (s : CacheState) : Decidable (FreshFor a s) := by
  unfold FreshFor
  exact inferInstance

/-- State of an Engine: one nullable cache pointer per primitive kind. -/
structure Engine where
  cache_of_bc : Option CacheState
  cache_of_sc : Option CacheState
  cache_of_hf : Option CacheState
  cache_of_mac : Option CacheState
deriving DecidableEq

/-- Engine::Engine - the constructor sets all four cache pointers to 0. -/
def Engine.construct : Engine :=
  { cache_of_bc := none, cache_of_sc := none, cache_of_hf := none,
    cache_of_mac := none }

/-- Mutex_Factory::make modelled as a fresh-id supply: returns the new
mutex id and the advanced factory state. -/
def mutexFactoryMake (mf : Nat) : Nat × Nat :=
  (mf, mf + 1)

/-- Algorithm_Cache_Impl::Algorithm_Cache_Impl(Mutex* m) - stores the
mutex, starts with an empty map. -/
def newCache (m : Nat) : CacheState :=
  { mutex := m, entries := [], destroyed := [] }

/-- Engine::initialize - constructs all four caches, calling the mutex
factory make() once per cache. -/
def Engine.initCaches (_e : Engine) (mf : Nat) : Engine × Nat :=
  let r1 := mutexFactoryMake mf
  let r2 := mutexFactoryMake r1.2
  let r3 := mutexFactoryMake r2.2
  let r4 := mutexFactoryMake r3.2
  ({ cache_of_bc := some (newCache r1.1),
     cache_of_sc := some (newCache r2.1),
     cache_of_hf := some (newCache r3.1),
     cache_of_mac := some (newCache r4.1) }, r4.2)

/-- Engine::prototype_block_cipher - cache lookup, on miss the external
find_block_cipher search, insertion of a found instance under the request
canonical string.  Result: the returned pointer, whether the search ran,
and the updated engine; the outer none is the undefined null-dereference
path of an uninitialized engine. -/
def Engine.prototype_block_cipher (e : Engine) (request : String)
    (find_block_cipher : String → Option Instance) :
    Option (Option Instance × Bool × Engine) :=
  match e.cache_of_bc with
  | none => none
  | some cache =>
      match cache.get request with
      | some algo => some (some algo, false, e)
      | none =>
          match find_block_cipher request with
          | some algo =>
              some (some algo, true,
                { e with cache_of_bc := some (cache.add (some algo) request) })
          | none => some (none, true, e)

/-- Engine::prototype_stream_cipher - same algorithm on cache_of_sc. -/
def Engine.prototype_stream_cipher (e : Engine) (request : String)
    (find_stream_cipher : String → Option Instance) :
    Option (Option Instance × Bool × Engine) :=
  match e.cache_of_sc with
  | none => none
  | some cache =>
      match cache.get request with
      | some algo => some (some algo, false, e)
      | none =>
          match find_stream_cipher request with
          | some algo =>
              some (some algo, true,
                { e with cache_of_sc := some (cache.add (some algo) request) })
          | none => some (none, true, e)

/-- Engine::prototype_hash_function - same algorithm on cache_of_hf. -/
def Engine.prototype_hash_function (e : Engine) (request : String)
    (find_hash : String → Option Instance) :
    Option (Option Instance × Bool × Engine) :=
  match e.cache_of_hf with
  | none => none
  | some cache =>
      match cache.get request with
      | some algo => some (some algo, false, e)
      | none =>
          match find_hash request with
          | some algo =>
              some (some algo, true,
                { e with cache_of_hf := some (cache.add (some algo) request) })
          | none => some (none, true, e)

/-- Engine::prototype_mac - same algorithm on cache_of_mac. -/
def Engine.prototype_mac (e : Engine) (request : String)
    (find_mac : String → Option Instance) :
    Option (Option Instance × Bool × Engine) :=
  match e.cache_of_mac with
  | none => none
  | some cache =>
      match cache.get request with
      | some algo => some (some algo, false, e)
      | none =>
          match find_mac request with
          | some algo =>
              some (some algo, true,
                { e with cache_of_mac := some (cache.add (some algo) request) })
          | none => some (none, true, e)

/-- Engine::add_algorithm(BlockCipher*) - forwards to add with the default
empty index_name. -/
def Engine.add_algorithm_bc (e : Engine) (algo : Option Instance) : Option Engine :=
  match e.cache_of_bc with
  | none => none
  | some cache => some { e with cache_of_bc := some (cache.add algo "") }

/-- Engine::add_algorithm(StreamCipher*) - forwards to add with the default
empty index_name. -/
def Engine.add_algorithm_sc (e : Engine) (algo : Option Instance) : Option Engine :=
  match e.cache_of_sc with
  | none => none
  | some cache => some { e with cache_of_sc := some (cache.add algo "") }

/-- Engine::add_algorithm(HashFunction*) - forwards to add with the default
empty index_name. -/
def Engine.add_algorithm_hf (e : Engine) (algo : Option Instance) : Option Engine :=
  match e.cache_of_hf with
  | none => none
  | some cache => some { e with cache_of_hf := some (cache.add algo "") }

/-- Engine::add_algorithm(MessageAuthenticationCode*) - forwards to add with
the default empty index_name. -/
def Engine.add_algorithm_mac (e : Engine) (algo : Option Instance) : Option Engine :=
  match e.cache_of_mac with
  | none => none
  | some cache => some { e with cache_of_mac := some (cache.add algo "") }

/-- Destructor events of a nullable cache pointer: delete on a null pointer
is a no-op. -/
def optDestructorEvents : Option CacheState → List FreeEvent
  | none => []
  | some c => c.destructorEvents

/-- Engine::~Engine - delete all four cache pointers in declaration order. -/
def Engine.destructorEvents (e : Engine) : List FreeEvent :=
  optDestructorEvents e.cache_of_bc ++ optDestructorEvents e.cache_of_sc ++
    optDestructorEvents e.cache_of_hf ++ optDestructorEvents e.cache_of_mac

/-- Instance ids of a nullable cache pointer. -/
def optValsOf : Option CacheState → List Nat
  | none => []
  | some c => valsOf c

/-- All instance ids currently owned by the four caches of an engine. -/
def Engine.ownedIds (e : Engine) : List Nat :=
  optValsOf e.cache_of_bc ++ optValsOf e.cache_of_sc ++
    optValsOf e.cache_of_hf ++ optValsOf e.cache_of_mac

/-- Invariant of a nullable cache pointer: holds trivially for null. -/
def OptInv : Option CacheState → Prop
  | none => True
  | some c => Inv c

instance (o : Option CacheState) : Decidable (OptInv o) :=
  match o with
  | none => isTrue trivial
  | some c => inferInstanceAs (Decidable (Inv c))

/-! Lemmas about search_map and updateKey. -/

theorem search_map_eq_none {l : List (String × Instance)} {k : String} :
    search_map l k = none ↔ k ∉ l.map Prod.fst := by
  induction l with
  | nil => simp [search_map]
  | cons p t ih =>
      obtain ⟨k0, v0⟩ := p
      by_cases hk : k0 = k
      · subst hk
        simp [search_map]
      · simp [search_map, hk, ih, Ne.symm hk]

theorem search_map_mem {l : List (String × Instance)} {k : String} {v : Instance}
    (h : search_map l k = some v) : (k, v) ∈ l := by
  induction l with
  | nil => simp [search_map] at h
  | cons p t ih =>
      obtain ⟨k0, v0⟩ := p
      by_cases hk : k0 = k
      · subst hk
        simp [search_map] at h
        simp [h]
      · simp [search_map, hk] at h
        exact List.mem_cons_of_mem _ (ih h)

theorem search_map_updateKey_self (l : List (String × Instance)) (k : String)
    (v : Instance) : search_map (updateKey l k v) k = some v := by
  induction l with
  | nil => simp [updateKey, search_map]
  | cons p t ih =>
      obtain ⟨k0, v0⟩ := p
      by_cases hk : k0 = k
      · simp [updateKey, hk, search_map]
      · simp [updateKey, hk, search_map, ih]

theorem search_map_updateKey_ne {k' k : String} (l : List (String × Instance))
    (v : Instance) (h : k' ≠ k) :
    search_map (updateKey l k v) k' = search_map l k' := by
  induction l with
  | nil => simp [updateKey, search_map, h, Ne.symm h]
  | cons p t ih =>
      obtain ⟨k0, v0⟩ := p
      by_cases hk : k0 = k
      · subst hk
        simp [updateKey, search_map, Ne.symm h]
      · simp [updateKey, hk, search_map, ih]

theorem keys_updateKey_of_mem {l : List (String × Instance)} {k : String}
    (v : Instance) (h : k ∈ l.map Prod.fst) :
    (updateKey l k v).map Prod.fst = l.map Prod.fst := by
  induction l with
  | nil => simp at h
  | cons p t ih =>
      obtain ⟨k0, v0⟩ := p
      by_cases hk : k0 = k
      · subst hk
        simp [updateKey]
      · simp only [List.map_cons, List.mem_cons] at h
        have h' : k ∈ t.map Prod.fst := by
          rcases h with h1 | h1
          · exact absurd h1.symm hk
          · exact h1
        simp only [updateKey, if_neg hk, List.map_cons, ih h']

theorem mem_vals_updateKey {l : List (String × Instance)} {k : String}
    {v : Instance} {x : Nat}
    (h : x ∈ (updateKey l k v).map (fun p => p.2.id)) :
    x = v.id ∨ x ∈ l.map (fun p => p.2.id) := by
  induction l with
  | nil =>
      simp only [updateKey, List.map_cons, List.map_nil, List.mem_cons,
        List.not_mem_nil, or_false] at h
      exact Or.inl h
  | cons p t ih =>
      obtain ⟨k0, v0⟩ := p
      by_cases hk : k0 = k
      · simp only [updateKey, if_pos hk, List.map_cons, List.mem_cons] at h
        rcases h with h | h
        · exact Or.inl h
        · exact Or.inr (by simp only [List.map_cons, List.mem_cons]; exact Or.inr h)
      · simp only [updateKey, if_neg hk, List.map_cons, List.mem_cons] at h
        rcases h with h | h
        · exact Or.inr (by simp only [List.map_cons, List.mem_cons]; exact Or.inl h)
        · rcases ih h with h' | h'
          · exact Or.inl h'
          · exact Or.inr (by simp only [List.map_cons, List.mem_cons]; exact Or.inr h')

theorem vals_updateKey_nodup {l : List (String × Instance)} {k : String}
    {v old : Instance}
    (hfound : search_map l k = some old)
    (hvals : (l.map (fun p => p.2.id)).Nodup)
    (hfresh : v.id ∉ l.map (fun p => p.2.id)) :
    ((updateKey l k v).map (fun p => p.2.id)).Nodup ∧
      old.id ∉ (updateKey l k v).map (fun p => p.2.id) := by
  induction l with
  | nil => simp [search_map] at hfound
  | cons p t ih =>
      obtain ⟨k0, v0⟩ := p
      simp only [List.map_cons, List.nodup_cons] at hvals
      simp only [List.map_cons, List.mem_cons, not_or] at hfresh
      by_cases hk : k0 = k
      · subst hk
        have hfound' : v0 = old := by simpa [search_map] using hfound
        subst hfound'
        simp only [updateKey, eq_self_iff_true, if_true, List.map_cons,
          List.nodup_cons, List.mem_cons, not_or]
        exact ⟨⟨hfresh.2, hvals.2⟩, fun he => hfresh.1 he.symm, hvals.1⟩
      · simp only [search_map, if_neg hk] at hfound
        obtain ⟨ih1, ih2⟩ := ih hfound hvals.2 hfresh.2
        have hv0new : v0.id ∉ (updateKey t k v).map (fun p => p.2.id) := by
          intro hmem
          rcases mem_vals_updateKey hmem with h' | h'
          · exact hfresh.1 h'.symm
          · exact hvals.1 h'
        have holdt : old.id ∈ t.map (fun p => p.2.id) :=
          List.mem_map.mpr ⟨(k, old), search_map_mem hfound, rfl⟩
        simp only [updateKey, if_neg hk, List.map_cons, List.nodup_cons,
          List.mem_cons, not_or]
        exact ⟨⟨hv0new, ih1⟩, fun he => hvals.1 (he ▸ holdt), ih2⟩

/-- Unfolding of add on a non-null instance, by cases on whether the chosen
key is already mapped. -/
theorem add_some_eq (s : CacheState) (a : Instance) (iname : String) :
    s.add (some a) iname =
      match search_map s.entries (if iname = "" then a.name else iname) with
      | some old =>
          { s with
              entries := updateKey s.entries (if iname = "" then a.name else iname) a,
              destroyed := s.destroyed ++ [old.id] }
      | none =>
          { s with
              entries := s.entries ++ [(if iname = "" then a.name else iname, a)] } :=
  rfl

theorem mem_destroyed_of_search_map {s : CacheState} {k : String} {old : Instance}
    (hs : Inv s) (hlk : search_map s.entries k = some old) :
    old.id ∈ valsOf s ∧ old.id ∉ s.destroyed := by
  have hmem : old.id ∈ valsOf s :=
    List.mem_map.mpr ⟨(k, old), search_map_mem hlk, rfl⟩
  exact ⟨hmem, fun hd => hs.2.2.2 old.id hd hmem⟩

/-- Adding a fresh non-null instance preserves the cache invariant. -/
theorem add_preserves_Inv (s : CacheState) (a : Instance) (iname : String)
    (hs : Inv s) (hf : FreshFor a s) : Inv (s.add (some a) iname) := by
  obtain ⟨hkeys, hvals, hdes, hdisj⟩ := hs
  obtain ⟨hf1, hf2⟩ := hf
  rw [add_some_eq]
  cases hlk : search_map s.entries (if iname = "" then a.name else iname) with
  | none =>
      have hknotin : (if iname = "" then a.name else iname) ∉ s.entries.map Prod.fst :=
        search_map_eq_none.mp hlk
      refine ⟨?_, ?_, hdes, ?_⟩
      · simp only [keysOf, List.map_append, List.map_cons, List.map_nil]
        exact List.Nodup.append hkeys (List.nodup_singleton _)
          (by intro x hx hy
              simp only [List.mem_singleton] at hy
              exact hknotin (hy ▸ hx))
      · simp only [valsOf, List.map_append, List.map_cons, List.map_nil]
        exact List.Nodup.append hvals (List.nodup_singleton _)
          (by intro x hx hy
              simp only [List.mem_singleton] at hy
              exact hf1 (hy ▸ hx))
      · intro x hx
        simp only [valsOf, List.map_append, List.map_cons, List.map_nil,
          List.mem_append, List.mem_singleton, not_or]
        exact ⟨hdisj x hx, fun he => hf2 (he ▸ hx)⟩
  | some old =>
      have hkin : (if iname = "" then a.name else iname) ∈ s.entries.map Prod.fst :=
        List.mem_map.mpr ⟨((if iname = "" then a.name else iname), old),
          search_map_mem hlk, rfl⟩
      have holdvals : old.id ∈ s.entries.map (fun p => p.2.id) :=
        List.mem_map.mpr ⟨((if iname = "" then a.name else iname), old),
          search_map_mem hlk, rfl⟩
      obtain ⟨hnd, hnotmem⟩ := vals_updateKey_nodup hlk hvals hf1
      refine ⟨?_, hnd, ?_, ?_⟩
      · simp only [keysOf]
        rw [keys_updateKey_of_mem a hkin]
        exact hkeys
      · refine List.Nodup.append hdes (List.nodup_singleton _) ?_
        intro x hx hy
        simp only [List.mem_singleton] at hy
        subst hy
        exact hdisj _ hx holdvals
      · intro x hx
        simp only [List.mem_append, List.mem_singleton] at hx
        rcases hx with hx | hx
        · intro hmem
          rcases mem_vals_updateKey hmem with h' | h'
          · exact hf2 (h' ▸ hx)
          · exact hdisj x hx h'
        · subst hx
          exact hnotmem

/-- C3: a cache has at most one entry per canonical name (its key list stays
duplicate-free), and an add of a fresh non-null instance under an
already-mapped key records the destruction of exactly the superseded
instance, exactly once, before leaving the map pointing at the new
instance; the full ownership invariant (nothing destroyed while still
mapped, no destruction recorded twice) is preserved. -/
theorem cache_add_replace_safety :
    ∀ (s : CacheState) (a old : Instance) (iname : String),
      Inv s → FreshFor a s →
      Inv (s.add (some a) iname) ∧
      (search_map s.entries (if iname = "" then a.name else iname) = some old →
        (s.add (some a) iname).destroyed = s.destroyed ++ [old.id] ∧
        ((s.add (some a) iname).destroyed).count old.id = 1 ∧
        old.id ∉ valsOf (s.add (some a) iname) ∧
        (s.add (some a) iname).get (if iname = "" then a.name else iname) = some a) := by
  intro s a old iname hs hf
  refine ⟨add_preserves_Inv s a iname hs hf, ?_⟩
  intro hlk
  obtain ⟨holdvals, holdnd⟩ := mem_destroyed_of_search_map hs hlk
  obtain ⟨hnd, hnotmem⟩ := vals_updateKey_nodup hlk hs.2.1 hf.1
  rw [add_some_eq, hlk]
  refine ⟨rfl, ?_, hnotmem, ?_⟩
  · rw [List.count_append, List.count_eq_zero.mpr holdnd]
    simp
  · exact search_map_updateKey_self _ _ _

/-- A concrete replacement: instance 2 registered over instance 1 under the
same name destroys instance 1 exactly once and leaves instance 2 mapped. -/
theorem cache_add_replace_safety_witness :
    Inv ((⟨0, [("AES-128", ⟨1, "AES-128"⟩)], []⟩ : CacheState).add
        (some ⟨2, "AES-128"⟩) "AES-128") ∧
    (((⟨0, [("AES-128", ⟨1, "AES-128"⟩)], []⟩ : CacheState).add
        (some ⟨2, "AES-128"⟩) "AES-128").destroyed = [] ++ [1] ∧
      ((((⟨0, [("AES-128", ⟨1, "AES-128"⟩)], []⟩ : CacheState).add
        (some ⟨2, "AES-128"⟩) "AES-128").destroyed).count 1 = 1) ∧
      1 ∉ valsOf ((⟨0, [("AES-128", ⟨1, "AES-128"⟩)], []⟩ : CacheState).add
        (some ⟨2, "AES-128"⟩) "AES-128") ∧
      (((⟨0, [("AES-128", ⟨1, "AES-128"⟩)], []⟩ : CacheState).add
        (some ⟨2, "AES-128"⟩) "AES-128").get "AES-128" = some ⟨2, "AES-128"⟩)) := by
  have h := cache_add_replace_safety ⟨0, [("AES-128", ⟨1, "AES-128"⟩)], []⟩
    ⟨2, "AES-128"⟩ ⟨1, "AES-128"⟩ "AES-128" (by decide) (by decide)
  exact ⟨h.1, h.2 (by decide)⟩

/-- C6: add with a null instance is a no-op - the cache state, map and
destruction record are all left untouched. -/
theorem add_null_noop :
    ∀ (s : CacheState) (iname : String), s.add none iname = s := by
  intro s iname
  rfl

theorem search_map_append_of_none {l : List (String × Instance)} {k : String}
    (h : search_map l k = none) (a : Instance) :
    search_map (l ++ [(k, a)]) k = some a := by
  induction l with
  | nil => simp [search_map]
  | cons p t ih =>
      obtain ⟨k0, v0⟩ := p
      by_cases hk : k0 = k
      · simp [search_map, hk] at h
      · simp only [search_map, if_neg hk] at h
        simp only [List.cons_append, search_map, if_neg hk]
        exact ih h

theorem search_map_append_ne {l : List (String × Instance)} {k key : String}
    (a : Instance) (h : k ≠ key) :
    search_map (l ++ [(key, a)]) k = search_map l k := by
  induction l with
  | nil => simp [search_map, Ne.symm h]
  | cons p t ih =>
      obtain ⟨k0, v0⟩ := p
      by_cases hk : k0 = k
      · simp only [List.cons_append, search_map, if_pos hk]
      · simp only [List.cons_append, search_map, if_neg hk]
        exact ih

/-- After an add of a non-null instance, the chosen key maps to it. -/
theorem add_get_key (s : CacheState) (a : Instance) (iname : String) :
    (s.add (some a) iname).get (if iname = "" then a.name else iname) = some a := by
  rw [add_some_eq]
  cases hlk : search_map s.entries (if iname = "" then a.name else iname) with
  | none => exact search_map_append_of_none hlk a
  | some old => exact search_map_updateKey_self _ _ _

/-- Full key routing of add: the chosen key now maps to the new instance,
every other key is untouched. -/
theorem add_search_map (s : CacheState) (a : Instance) (iname k : String) :
    search_map ((s.add (some a) iname).entries) k =
      if k = (if iname = "" then a.name else iname) then some a
      else search_map s.entries k := by
  by_cases hk : k = (if iname = "" then a.name else iname)
  · rw [if_pos hk, hk]
    exact add_get_key s a iname
  · rw [if_neg hk, add_some_eq]
    cases hlk : search_map s.entries (if iname = "" then a.name else iname) with
    | none => exact search_map_append_ne a hk
    | some old => exact search_map_updateKey_ne _ a hk

/-- C5: the key an add inserts under is the explicitly supplied index name
when one is given (nonempty), else the instance self-reported name, with
all other entries untouched; add_algorithm supplies no name, so every
registration keys the entry by the instance self-reported name. -/
theorem add_key_selection :
    ∀ (s : CacheState) (a : Instance) (iname k : String) (e : Engine)
      (c : CacheState),
      (search_map ((s.add (some a) iname).entries) k =
        if k = (if iname = "" then a.name else iname) then some a
        else search_map s.entries k) ∧
      (e.cache_of_bc = some c →
        e.add_algorithm_bc (some a) =
          some { e with cache_of_bc := some (c.add (some a) "") } ∧
        (c.add (some a) "").get a.name = some a) ∧
      (e.cache_of_sc = some c →
        e.add_algorithm_sc (some a) =
          some { e with cache_of_sc := some (c.add (some a) "") } ∧
        (c.add (some a) "").get a.name = some a) ∧
      (e.cache_of_hf = some c →
        e.add_algorithm_hf (some a) =
          some { e with cache_of_hf := some (c.add (some a) "") } ∧
        (c.add (some a) "").get a.name = some a) ∧
      (e.cache_of_mac = some c →
        e.add_algorithm_mac (some a) =
          some { e with cache_of_mac := some (c.add (some a) "") } ∧
        (c.add (some a) "").get a.name = some a) := by
  intro s a iname k e c
  have hreg : (c.add (some a) "").get a.name = some a := by
    have h := add_get_key c a ""
    simpa using h
  refine ⟨add_search_map s a iname k, ?_, ?_, ?_, ?_⟩
  · intro hslot
    exact ⟨by simp [Engine.add_algorithm_bc, hslot], hreg⟩
  · intro hslot
    exact ⟨by simp [Engine.add_algorithm_sc, hslot], hreg⟩
  · intro hslot
    exact ⟨by simp [Engine.add_algorithm_hf, hslot], hreg⟩
  · intro hslot
    exact ⟨by simp [Engine.add_algorithm_mac, hslot], hreg⟩

/-- A concrete registration: add_algorithm on each primitive kind keys the
instance by its self-reported name. -/
theorem add_key_selection_witness :
    (search_map (((⟨0, [], []⟩ : CacheState).add (some ⟨1, "MD5"⟩) "alias").entries)
        "alias" = some ⟨1, "MD5"⟩) ∧
    ((⟨some ⟨0, [], []⟩, some ⟨1, [], []⟩, some ⟨2, [], []⟩,
        some ⟨3, [], []⟩⟩ : Engine).add_algorithm_bc (some ⟨1, "MD5"⟩) =
      some ⟨some ((⟨0, [], []⟩ : CacheState).add (some ⟨1, "MD5"⟩) ""),
        some ⟨1, [], []⟩, some ⟨2, [], []⟩, some ⟨3, [], []⟩⟩) ∧
    (((⟨0, [], []⟩ : CacheState).add (some ⟨1, "MD5"⟩) "").get "MD5" =
      some ⟨1, "MD5"⟩) := by
  have h := add_key_selection ⟨0, [], []⟩ ⟨1, "MD5"⟩ "alias" "alias"
    ⟨some ⟨0, [], []⟩, some ⟨1, [], []⟩, some ⟨2, [], []⟩, some ⟨3, [], []⟩⟩
    ⟨0, [], []⟩
  have hbc := h.2.1 rfl
  exact ⟨by simpa using h.1, hbc.1, hbc.2⟩

/-- C10 counterexample: an instance whose self-reported name is the empty
string, added with an explicit empty-string name, is keyed under the empty
string - so the empty string can itself be a cache key. -/
theorem add_empty_name_empty_key_counterexample :
    ((⟨0, [], []⟩ : CacheState).add (some ⟨7, ""⟩) "").get "" = some ⟨7, ""⟩ := by
  rfl

/-- C10 (amended): add with an explicit empty-string name routes exactly as
the defaulted no-name call - the entry is keyed by the instance
self-reported name and every other entry is untouched; hence the empty
string becomes a cache key only when an instance self-reports the empty
name. -/
theorem add_empty_name_self_keyed :
    ∀ (s : CacheState) (a : Instance) (k : String),
      (search_map ((s.add (some a) "").entries) k =
        if k = a.name then some a else search_map s.entries k) ∧
      (a.name ≠ "" → s.get "" = none → (s.add (some a) "").get "" = none) := by
  intro s a k
  constructor
  · have h := add_search_map s a "" k
    simpa using h
  · intro hname hempty
    have h := add_search_map s a "" ""
    simp only [if_pos rfl] at h
    rw [if_neg (by exact fun he => hname he.symm)] at h
    exact h.trans hempty

/-- A concrete add with an explicit empty-string name: the entry lands under
the self-reported name and the empty string stays unmapped. -/
theorem add_empty_name_self_keyed_witness :
    (search_map (((⟨0, [], []⟩ : CacheState).add (some ⟨8, "SHA-1"⟩) "").entries)
        "SHA-1" = some ⟨8, "SHA-1"⟩) ∧
    ((⟨0, [], []⟩ : CacheState).add (some ⟨8, "SHA-1"⟩) "").get "" = none := by
  have h := add_empty_name_self_keyed ⟨0, [], []⟩ ⟨8, "SHA-1"⟩ "SHA-1"
  exact ⟨by simpa using h.1, h.2 (by decide) (by decide)⟩

/-- C1: for each of the four primitive kinds, an acquisition on an
initialized engine whose cache already maps the request canonical name
returns the cached instance, reports the search as not invoked, and leaves
the engine unchanged. -/
theorem prototype_cache_hit_skips_search :
    ∀ (e : Engine) (c : CacheState) (req : String) (inst : Instance)
      (find : String → Option Instance),
      (e.cache_of_bc = some c → c.get req = some inst →
        e.prototype_block_cipher req find = some (some inst, false, e)) ∧
      (e.cache_of_sc = some c → c.get req = some inst →
        e.prototype_stream_cipher req find = some (some inst, false, e)) ∧
      (e.cache_of_hf = some c → c.get req = some inst →
        e.prototype_hash_function req find = some (some inst, false, e)) ∧
      (e.cache_of_mac = some c → c.get req = some inst →
        e.prototype_mac req find = some (some inst, false, e)) := by
  intro e c req inst find
  refine ⟨?_, ?_, ?_, ?_⟩
  · intro hslot hhit
    simp [Engine.prototype_block_cipher, hslot, hhit]
  · intro hslot hhit
    simp [Engine.prototype_stream_cipher, hslot, hhit]
  · intro hslot hhit
    simp [Engine.prototype_hash_function, hslot, hhit]
  · intro hslot hhit
    simp [Engine.prototype_mac, hslot, hhit]

/-- A concrete cache hit on all four primitive kinds: the cached instance
comes back and the search function never runs. -/
theorem prototype_cache_hit_skips_search_witness :
    ((⟨some ⟨0, [("AES-128", ⟨1, "AES-128"⟩)], []⟩,
       some ⟨0, [("AES-128", ⟨1, "AES-128"⟩)], []⟩,
       some ⟨0, [("AES-128", ⟨1, "AES-128"⟩)], []⟩,
       some ⟨0, [("AES-128", ⟨1, "AES-128"⟩)], []⟩⟩ : Engine).prototype_block_cipher
        "AES-128" (fun _ => none) =
      some (some ⟨1, "AES-128"⟩, false,
        ⟨some ⟨0, [("AES-128", ⟨1, "AES-128"⟩)], []⟩,
         some ⟨0, [("AES-128", ⟨1, "AES-128"⟩)], []⟩,
         some ⟨0, [("AES-128", ⟨1, "AES-128"⟩)], []⟩,
         some ⟨0, [("AES-128", ⟨1, "AES-128"⟩)], []⟩⟩)) ∧
    ((⟨some ⟨0, [("AES-128", ⟨1, "AES-128"⟩)], []⟩,
       some ⟨0, [("AES-128", ⟨1, "AES-128"⟩)], []⟩,
       some ⟨0, [("AES-128", ⟨1, "AES-128"⟩)], []⟩,
       some ⟨0, [("AES-128", ⟨1, "AES-128"⟩)], []⟩⟩ : Engine).prototype_stream_cipher
        "AES-128" (fun _ => none) =
      some (some ⟨1, "AES-128"⟩, false,
        ⟨some ⟨0, [("AES-128", ⟨1, "AES-128"⟩)], []⟩,
         some ⟨0, [("AES-128", ⟨1, "AES-128"⟩)], []⟩,
         some ⟨0, [("AES-128", ⟨1, "AES-128"⟩)], []⟩,
         some ⟨0, [("AES-128", ⟨1, "AES-128"⟩)], []⟩⟩)) ∧
    ((⟨some ⟨0, [("AES-128", ⟨1, "AES-128"⟩)], []⟩,
       some ⟨0, [("AES-128", ⟨1, "AES-128"⟩)], []⟩,
       some ⟨0, [("AES-128", ⟨1, "AES-128"⟩)], []⟩,
       some ⟨0, [("AES-128", ⟨1, "AES-128"⟩)], []⟩⟩ : Engine).prototype_hash_function
        "AES-128" (fun _ => none) =
      some (some ⟨1, "AES-128"⟩, false,
        ⟨some ⟨0, [("AES-128", ⟨1, "AES-128"⟩)], []⟩,
         some ⟨0, [("AES-128", ⟨1, "AES-128"⟩)], []⟩,
         some ⟨0, [("AES-128", ⟨1, "AES-128"⟩)], []⟩,
         some ⟨0, [("AES-128", ⟨1, "AES-128"⟩)], []⟩⟩)) ∧
    ((⟨some ⟨0, [("AES-128", ⟨1, "AES-128"⟩)], []⟩,
       some ⟨0, [("AES-128", ⟨1, "AES-128"⟩)], []⟩,
       some ⟨0, [("AES-128", ⟨1, "AES-128"⟩)], []⟩,
       some ⟨0, [("AES-128", ⟨1, "AES-128"⟩)], []⟩⟩ : Engine).prototype_mac
        "AES-128" (fun _ => none) =
      some (some ⟨1, "AES-128"⟩, false,
        ⟨some ⟨0, [("AES-128", ⟨1, "AES-128"⟩)], []⟩,
         some ⟨0, [("AES-128", ⟨1, "AES-128"⟩)], []⟩,
         some ⟨0, [("AES-128", ⟨1, "AES-128"⟩)], []⟩,
         some ⟨0, [("AES-128", ⟨1, "AES-128"⟩)], []⟩⟩)) := by
  have h := prototype_cache_hit_skips_search
    ⟨some ⟨0, [("AES-128", ⟨1, "AES-128"⟩)], []⟩,
     some ⟨0, [("AES-128", ⟨1, "AES-128"⟩)], []⟩,
     some ⟨0, [("AES-128", ⟨1, "AES-128"⟩)], []⟩,
     some ⟨0, [("AES-128", ⟨1, "AES-128"⟩)], []⟩⟩
    ⟨0, [("AES-128", ⟨1, "AES-128"⟩)], []⟩ "AES-128" ⟨1, "AES-128"⟩
    (fun _ => none)
  exact ⟨h.1 rfl rfl, h.2.1 rfl rfl, h.2.2.1 rfl rfl, h.2.2.2 rfl rfl⟩

/-- C2 counterexample: a request whose canonical string is empty misses the
cache, the search finds an instance self-named X, and the code files the
entry under X - not under the request canonical string, which stays
unmapped. -/
theorem prototype_miss_empty_canonical_counterexample :
    ((⟨some ⟨0, [], []⟩, none, none, none⟩ : Engine).prototype_block_cipher ""
        (fun _ => some ⟨5, "X"⟩) =
      some (some ⟨5, "X"⟩, true,
        ⟨some ⟨0, [("X", ⟨5, "X"⟩)], []⟩, none, none, none⟩)) ∧
    ((⟨0, [("X", ⟨5, "X"⟩)], []⟩ : CacheState).get "" = none) ∧
    ((⟨0, [("X", ⟨5, "X"⟩)], []⟩ : CacheState).get "X" = some ⟨5, "X"⟩) := by
  exact ⟨rfl, rfl, rfl⟩

/-- C2 (amended): on a cache miss for any primitive kind the external search
runs; a found instance is inserted keyed by the request canonical string
provided that string is nonempty (an empty canonical string keys the entry
by the instance self-reported name instead) and returned; a failed search
returns nothing and leaves the engine unchanged, so no entry is created
and an identical later call searches again. -/
theorem prototype_miss_invokes_search :
    ∀ (e : Engine) (c : CacheState) (req : String) (a : Instance)
      (find : String → Option Instance),
      req ≠ "" →
      (e.cache_of_bc = some c → c.get req = none →
        (find req = some a →
          e.prototype_block_cipher req find =
            some (some a, true,
              { e with cache_of_bc := some (c.add (some a) req) }) ∧
          (c.add (some a) req).get req = some a) ∧
        (find req = none →
          e.prototype_block_cipher req find = some (none, true, e))) ∧
      (e.cache_of_sc = some c → c.get req = none →
        (find req = some a →
          e.prototype_stream_cipher req find =
            some (some a, true,
              { e with cache_of_sc := some (c.add (some a) req) }) ∧
          (c.add (some a) req).get req = some a) ∧
        (find req = none →
          e.prototype_stream_cipher req find = some (none, true, e))) ∧
      (e.cache_of_hf = some c → c.get req = none →
        (find req = some a →
          e.prototype_hash_function req find =
            some (some a, true,
              { e with cache_of_hf := some (c.add (some a) req) }) ∧
          (c.add (some a) req).get req = some a) ∧
        (find req = none →
          e.prototype_hash_function req find = some (none, true, e))) ∧
      (e.cache_of_mac = some c → c.get req = none →
        (find req = some a →
          e.prototype_mac req find =
            some (some a, true,
              { e with cache_of_mac := some (c.add (some a) req) }) ∧
          (c.add (some a) req).get req = some a) ∧
        (find req = none →
          e.prototype_mac req find = some (none, true, e))) := by
  intro e c req a find hreq
  have hkeyed : find req = some a → (c.add (some a) req).get req = some a := by
    intro _
    have h := add_get_key c a req
    rwa [if_neg hreq] at h
  refine ⟨?_, ?_, ?_, ?_⟩
  · intro hslot hmiss
    refine ⟨fun hfind => ⟨?_, hkeyed hfind⟩, fun hfind => ?_⟩
    · simp [Engine.prototype_block_cipher, hslot, hmiss, hfind]
    · simp [Engine.prototype_block_cipher, hslot, hmiss, hfind]
  · intro hslot hmiss
    refine ⟨fun hfind => ⟨?_, hkeyed hfind⟩, fun hfind => ?_⟩
    · simp [Engine.prototype_stream_cipher, hslot, hmiss, hfind]
    · simp [Engine.prototype_stream_cipher, hslot, hmiss, hfind]
  · intro hslot hmiss
    refine ⟨fun hfind => ⟨?_, hkeyed hfind⟩, fun hfind => ?_⟩
    · simp [Engine.prototype_hash_function, hslot, hmiss, hfind]
    · simp [Engine.prototype_hash_function, hslot, hmiss, hfind]
  · intro hslot hmiss
    refine ⟨fun hfind => ⟨?_, hkeyed hfind⟩, fun hfind => ?_⟩
    · simp [Engine.prototype_mac, hslot, hmiss, hfind]
    · simp [Engine.prototype_mac, hslot, hmiss, hfind]

/-- A concrete miss-then-insert and a concrete failed search on the block
cipher path. -/
theorem prototype_miss_invokes_search_witness :
    ((⟨some ⟨0, [], []⟩, none, none, none⟩ : Engine).prototype_block_cipher
        "DES" (fun _ => some ⟨6, "DES"⟩) =
      some (some ⟨6, "DES"⟩, true,
        ⟨some ((⟨0, [], []⟩ : CacheState).add (some ⟨6, "DES"⟩) "DES"),
          none, none, none⟩)) ∧
    (((⟨0, [], []⟩ : CacheState).add (some ⟨6, "DES"⟩) "DES").get "DES" =
      some ⟨6, "DES"⟩) ∧
    ((⟨some ⟨0, [], []⟩, none, none, none⟩ : Engine).prototype_block_cipher
        "DES" (fun _ => none) =
      some (none, true, ⟨some ⟨0, [], []⟩, none, none, none⟩)) := by
  have h1 := (prototype_miss_invokes_search
    ⟨some ⟨0, [], []⟩, none, none, none⟩ ⟨0, [], []⟩ "DES" ⟨6, "DES"⟩
    (fun _ => some ⟨6, "DES"⟩) (by decide)).1 rfl rfl
  have h2 := (prototype_miss_invokes_search
    ⟨some ⟨0, [], []⟩, none, none, none⟩ ⟨0, [], []⟩ "DES" ⟨6, "DES"⟩
    (fun _ => none) (by decide)).1 rfl rfl
  exact ⟨(h1.1 rfl).1, (h1.1 rfl).2, h2.2 rfl⟩

/-- C8: a freshly constructed engine has all four cache pointers null; one
initialization call builds all four caches empty, calling the mutex factory
make exactly four times (the factory state advances by four) and giving
each cache its own distinct mutex. -/
theorem engine_construct_and_init :
    (Engine.construct.cache_of_bc = none ∧ Engine.construct.cache_of_sc = none ∧
     Engine.construct.cache_of_hf = none ∧ Engine.construct.cache_of_mac = none) ∧
    ∀ (e : Engine) (mf : Nat),
      (e.initCaches mf).2 = mf + 4 ∧
      (e.initCaches mf).1.cache_of_bc = some (newCache mf) ∧
      (e.initCaches mf).1.cache_of_sc = some (newCache (mf + 1)) ∧
      (e.initCaches mf).1.cache_of_hf = some (newCache (mf + 2)) ∧
      (e.initCaches mf).1.cache_of_mac = some (newCache (mf + 3)) ∧
      (mf ≠ mf + 1 ∧ mf ≠ mf + 2 ∧ mf ≠ mf + 3 ∧ mf + 1 ≠ mf + 2 ∧
        mf + 1 ≠ mf + 3 ∧ mf + 2 ≠ mf + 3) := by
  refine ⟨⟨rfl, rfl, rfl, rfl⟩, ?_⟩
  intro e mf
  refine ⟨rfl, rfl, rfl, rfl, rfl, ?_⟩
  omega

/-- C9 counterexample: a view of the instance cached under X is handed out
by get, then an add supersedes that entry; the superseding add deletes the
viewed instance (its id enters the destruction record), so the outstanding
raw-pointer view dangles instead of remaining valid. -/
theorem view_invalidated_by_supersede_counterexample :
    ((⟨0, [("X", ⟨1, "X"⟩)], []⟩ : CacheState).get "X" = some ⟨1, "X"⟩) ∧
    (((⟨0, [("X", ⟨1, "X"⟩)], []⟩ : CacheState).add (some ⟨2, "X"⟩) "X").destroyed
      = [1]) := by
  exact ⟨rfl, rfl⟩

/-- C9 (amended): a view returned by get stays valid only until a later add
supersedes that entry: a superseding add appends exactly the viewed
instance id to the destruction record, invalidating the raw-pointer view
rather than keeping it alive. -/
theorem add_supersede_destroys_viewed :
    ∀ (s : CacheState) (name : String) (viewed a : Instance) (iname : String),
      s.get name = some viewed →
      (if iname = "" then a.name else iname) = name →
      (s.add (some a) iname).destroyed = s.destroyed ++ [viewed.id] := by
  intro s name viewed a iname hview hkey
  have hview' : search_map s.entries (if iname = "" then a.name else iname)
      = some viewed := by
    rw [hkey]
    exact hview
  rw [add_some_eq, hview']

/-- A concrete superseding add: the id of the previously viewed instance is
recorded as destroyed. -/
theorem add_supersede_destroys_viewed_witness :
    ((⟨4, [("Y", ⟨3, "Y"⟩)], []⟩ : CacheState).add (some ⟨9, "Y"⟩) "Y").destroyed
      = [] ++ [3] :=
  add_supersede_destroys_viewed ⟨4, [("Y", ⟨3, "Y"⟩)], []⟩ "Y" ⟨3, "Y"⟩
    ⟨9, "Y"⟩ "Y" (by decide) (by decide)

theorem count_map_inst (l : List Nat) (i : Nat) :
    (l.map FreeEvent.inst).count (FreeEvent.inst i) = l.count i := by
  induction l with
  | nil => rfl
  | cons x t ih =>
      simp only [List.map_cons, List.count_cons, ih]
      congr 1
      by_cases h : x = i
      · simp [h]
      · simp [h]

/-- The destructor of a cache frees instance id i as often as the map
currently owns it. -/
theorem count_inst_destructor (c : CacheState) (i : Nat) :
    (c.destructorEvents).count (FreeEvent.inst i) = (valsOf c).count i := by
  unfold CacheState.destructorEvents
  rw [List.count_append]
  have h1 : c.entries.map (fun p => FreeEvent.inst p.2.id)
      = (valsOf c).map FreeEvent.inst := by
    simp [valsOf, List.map_map]
  rw [h1, count_map_inst]
  have h2 : ([FreeEvent.mutex c.mutex].count (FreeEvent.inst i)) = 0 :=
    List.count_eq_zero.mpr (by simp)
  rw [h2]
  omega

theorem count_inst_opt (o : Option CacheState) (i : Nat) :
    (optDestructorEvents o).count (FreeEvent.inst i) = (optValsOf o).count i := by
  cases o with
  | none => rfl
  | some c => exact count_inst_destructor c i

/-- C4: a cache being torn down frees every instance it still owns exactly
once and frees its mutex last; over the whole cache lifetime every freed
instance id is freed exactly once (no leak of a superseded or owned
instance, no double free); and engine destruction, which tolerates any
subset of the four cache pointers being null, frees each owned instance
exactly once. -/
theorem teardown_frees_exactly_once :
    (∀ (s : CacheState), Inv s →
      (∀ i ∈ valsOf s, (s.destructorEvents).count (FreeEvent.inst i) = 1) ∧
      s.destructorEvents.getLast? = some (FreeEvent.mutex s.mutex) ∧
      s.lifetimeFreedIds.Nodup ∧
      (∀ i ∈ s.lifetimeFreedIds, s.lifetimeFreedIds.count i = 1)) ∧
    (∀ (e : Engine),
      OptInv e.cache_of_bc → OptInv e.cache_of_sc →
      OptInv e.cache_of_hf → OptInv e.cache_of_mac →
      (Engine.ownedIds e).Nodup →
      ∀ i ∈ Engine.ownedIds e,
        (Engine.destructorEvents e).count (FreeEvent.inst i) = 1) := by
  constructor
  · intro s hs
    have hvals := hs.2.1
    have hlife : s.lifetimeFreedIds.Nodup := by
      unfold CacheState.lifetimeFreedIds
      exact List.Nodup.append hs.2.2.1 hvals
        (fun x hx hy => hs.2.2.2 x hx hy)
    refine ⟨?_, ?_, hlife, ?_⟩
    · intro i hi
      rw [count_inst_destructor]
      exact List.count_eq_one_of_mem hvals hi
    · unfold CacheState.destructorEvents
      exact List.getLast?_concat _
    · intro i hi
      exact List.count_eq_one_of_mem hlife hi
  · intro e h1 h2 h3 h4 hnd i hi
    have hcount : (Engine.destructorEvents e).count (FreeEvent.inst i)
        = (Engine.ownedIds e).count i := by
      unfold Engine.destructorEvents Engine.ownedIds
      simp only [List.count_append, count_inst_opt]
    rw [hcount]
    exact List.count_eq_one_of_mem hnd hi

/-- A concrete teardown: an engine with two live caches (one also holding a
past destruction record) and two null cache pointers frees its one owned
instance exactly once, and the cache destructor frees the mutex last. -/
theorem teardown_frees_exactly_once_witness :
    ((∀ i ∈ valsOf ⟨0, [("A", ⟨1, "A"⟩)], [9]⟩,
        ((⟨0, [("A", ⟨1, "A"⟩)], [9]⟩ : CacheState).destructorEvents).count
          (FreeEvent.inst i) = 1) ∧
      ((⟨0, [("A", ⟨1, "A"⟩)], [9]⟩ : CacheState).destructorEvents.getLast?
        = some (FreeEvent.mutex 0)) ∧
      ((⟨0, [("A", ⟨1, "A"⟩)], [9]⟩ : CacheState).lifetimeFreedIds.Nodup) ∧
      (∀ i ∈ (⟨0, [("A", ⟨1, "A"⟩)], [9]⟩ : CacheState).lifetimeFreedIds,
        ((⟨0, [("A", ⟨1, "A"⟩)], [9]⟩ : CacheState).lifetimeFreedIds.count i = 1))) ∧
    ((Engine.destructorEvents
        ⟨some ⟨0, [("A", ⟨1, "A"⟩)], [9]⟩, none, some ⟨5, [], []⟩, none⟩).count
      (FreeEvent.inst 1) = 1) := by
  have h := teardown_frees_exactly_once
  refine ⟨h.1 ⟨0, [("A", ⟨1, "A"⟩)], [9]⟩ (by decide), ?_⟩
  exact h.2 ⟨some ⟨0, [("A", ⟨1, "A"⟩)], [9]⟩, none, some ⟨5, [], []⟩, none⟩
    (by decide) (by decide) (by decide) (by decide) (by decide) 1 (by decide)

end BotanEngine
